import Mathlib

/-!
# Service lifecycle manager

A shallow embedding of the Go package `wlgo_svc_lifecycle_mgr`
(`manager.go`, `result.go`, `service_provider.go`) and proofs about the
ordering and rollback contract of `Manager.Start` and `Manager.Rollback`.

Modelling choices.

* A Go `error` value is an `error`; the nil error is `none` in `Option error`.
* A `ServiceProvider` is a non-nil interface value: its name and its two
  methods.  `Begin` and `End` have arbitrary side effects, so they are state
  transformers over a world `σ` chosen by the client; they return, and they
  do not reach back into the manager that calls them.
* Go compares providers by reference.  Here two providers are equal when
  their name and their two methods are, so a statement that two providers
  differ is at least as strong as its Go reading.
* A `World` is the client state together with the list of method calls made
  so far, oldest first.  Each entry records the method, the loop index at which
  the manager made the call, the provider, and the error it returned.
* `Start` and `Rollback` mutate the manager through a pointer; here they
  return the new manager together with the `Result` and the new world.
-/

namespace LifecycleMgr

/-- A non-nil Go `error` value. -/
structure error where
  msg : String
  deriving DecidableEq, Repr

/-- The `ServiceProvider` interface of `service_provider.go`. -/
structure ServiceProvider (σ : Type) where
  GetName : String
  Begin : σ → Option error × σ
  End : σ → Option error × σ

/-- The two methods the manager invokes. -/
inductive Method where
  | Begin
  | End
  deriving DecidableEq, Repr

/-- One observed method call: which method, at which loop index, on which
provider, and what it returned. -/
structure Call (σ : Type) where
  method : Method
  index : Nat
  sp : ServiceProvider σ
  ret : Option error

/-- The world outside the manager: client state and the calls made so far. -/
structure World (σ : Type) where
  state : σ
  calls : List (Call σ)

/-- The struct `result` of `result.go`; both fields may be nil. -/
structure result (σ : Type) where
  err : Option error
  errServiceProvider : Option (ServiceProvider σ)

/-- The interface `Result` is implemented by `result` only. -/
abbrev Result (σ : Type) := result σ

/-- Method `GetError` of `result.go`. -/
def result.GetError {σ : Type} (r : result σ) : Option error := r.err

/-- Method `GetErrServiceProvider` of `result.go`. -/
def result.GetErrServiceProvider {σ : Type} (r : result σ) : Option (ServiceProvider σ) :=
  r.errServiceProvider

/-- The struct `Manager` of `manager.go`. -/
structure Manager (σ : Type) where
  services : List (ServiceProvider σ)
  startedServices : List (ServiceProvider σ)

/-- What a pass hands back: the returned `Result`, the manager after the
pass, and the world after the pass. -/
structure Pass (σ : Type) where
  res : Result σ
  m : Manager σ
  w : World σ

variable {σ : Type}

/-- Function `NewManager` of `manager.go`. -/
def NewManager : Manager σ :=
  { services := [], startedServices := [] }

/-- Method `AddService` of `manager.go`. -/
def AddService (m : Manager σ) (services : List (ServiceProvider σ)) : Manager σ :=
  { m with services := m.services ++ services }

/-- Method dispatch on a provider: `s.Begin()` or `s.End()` run on a client
state. -/
def ServiceProvider.call (s : ServiceProvider σ) (k : Method) (st : σ) : Option error × σ :=
  match k with
  | Method.Begin => s.Begin st
  | Method.End => s.End st

/-- A call `s.Begin()` or `s.End()` made by the manager at loop index `i`:
runs the method on the client state and appends the call to the record. -/
def invoke (k : Method) (i : Nat) (s : ServiceProvider σ) (w : World σ) :
    Option error × World σ :=
  ((s.call k w.state).1,
    { state := (s.call k w.state).2,
      calls := w.calls ++ [{ method := k, index := i, sp := s, ret := (s.call k w.state).1 }] })

/-- The `for _, s := range m.services` loop of `Start`, with the loop
variables `err` and `errServiceProvider`; `i` is the index of the head of the
remaining range. -/
def Start.loop : List (ServiceProvider σ) → Nat → Option error →
    Option (ServiceProvider σ) → Manager σ → World σ → Pass σ
  | [], _, err, errServiceProvider, m, w =>
    { res := { err := err, errServiceProvider := errServiceProvider }, m := m, w := w }
  | s :: rest, i, _, errServiceProvider, m, w =>
    match invoke Method.Begin i s w with
    | (some e, w1) =>
      { res := { err := some e, errServiceProvider := some s }, m := m, w := w1 }
    | (none, w1) =>
      Start.loop rest (i + 1) none errServiceProvider
        { m with startedServices := m.startedServices ++ [s] } w1

/-- Method `Start` of `manager.go`. -/
def Start (m : Manager σ) (w : World σ) : Pass σ :=
  Start.loop m.services 0 none none { m with startedServices := [] } w

/-- The `for i := len(m.startedServices) - 1; i >= 0; i--` loop of
`Rollback`; the counter `n` is `i + 1`. -/
def Rollback.loop (m : Manager σ) : (n : Nat) → n ≤ m.startedServices.length →
    Option error → Option (ServiceProvider σ) → World σ → Pass σ
  | 0, _, err, errServiceProvider, w =>
    { res := { err := err, errServiceProvider := errServiceProvider }, m := m, w := w }
  | i + 1, h, _, errServiceProvider, w =>
    match invoke Method.End i (m.startedServices.get ⟨i, h⟩) w with
    | (some e, w1) =>
      { res := { err := some e, errServiceProvider := some (m.startedServices.get ⟨i, h⟩) },
        m := m, w := w1 }
    | (none, w1) =>
      Rollback.loop m i (Nat.le_of_succ_le h) none errServiceProvider w1

/-- Method `Rollback` of `manager.go`. -/
def Rollback (m : Manager σ) (w : World σ) : Pass σ :=
  Rollback.loop m m.startedServices.length (Nat.le_refl _) none none w

/-! ## Vocabulary of the statements -/

/-- The client state after method `k` has run on each element of `l`, in
the order of `l`, starting from `st`. -/
def afterAll (k : Method) : List (ServiceProvider σ) → σ → σ
  | [], st => st
  | s :: l, st => afterAll k l (s.call k st).2

/-- Every call of method `k` returns nil when the elements of `l` are visited
in the order of `l`, starting from `st`. -/
def AllOk (k : Method) : List (ServiceProvider σ) → σ → Prop
  | [], _ => True
  | s :: l, st => (s.call k st).1 = none ∧ AllOk k l (s.call k st).2

/-- The record of successful calls of method `k` on the listed (index,
provider) pairs, in the order of the list. -/
def okCalls (k : Method) (V : List (Nat × ServiceProvider σ)) : List (Call σ) :=
  V.map (fun p => { method := k, index := p.1, sp := p.2, ret := none })

/-- The calls a pass added to the record of the world `w` it started from. -/
def Pass.newCalls (P : Pass σ) (w : World σ) : List (Call σ) :=
  P.w.calls.drop w.calls.length

/-- Outcome of a fail-fast visit: the first failure (error and the pair it
came from) if any, how many calls succeeded before it, and the world
afterwards. -/
structure Scan (σ : Type) where
  fail : Option (error × (Nat × ServiceProvider σ))
  passed : Nat
  w : World σ

/-- Fail-fast visit of a list of (index, provider) pairs with method `k`:
the common shape of the two loops of the manager. -/
def scan (k : Method) : List (Nat × ServiceProvider σ) → World σ → Scan σ
  | [], w => { fail := none, passed := 0, w := w }
  | p :: V, w =>
    match invoke k p.1 p.2 w with
    | (some e, w1) => { fail := some (e, p), passed := 0, w := w1 }
    | (none, w1) =>
      { fail := (scan k V w1).fail, passed := (scan k V w1).passed + 1, w := (scan k V w1).w }

/-- The `Result` a loop builds from the outcome of its visit. -/
def Scan.result (r : Scan σ) : Result σ :=
  match r.fail with
  | some (e, p) => { err := some e, errServiceProvider := some p.2 }
  | none => { err := none, errServiceProvider := none }

/-! ## The convenience provider of `service_provider.go` -/

/-- The struct `serviceProvider` as `NewServiceProvider` fills it: a name and
two callables that are not nil.  Its embedded `ServiceProvider` field is never
set and every method of the interface is defined on the struct itself, so it
is left out. -/
structure serviceProvider (σ : Type) where
  name : String
  begin : σ → Option error × σ
  «end» : σ → Option error × σ

/-- Method `GetName` of `serviceProvider`. -/
def serviceProvider.GetName (sp : serviceProvider σ) : String := sp.name

/-- Method `Begin` of `serviceProvider`: calls the stored `begin`. -/
def serviceProvider.Begin (sp : serviceProvider σ) (st : σ) : Option error × σ := sp.begin st

/-- Method `End` of `serviceProvider`: calls the stored `end`. -/
def serviceProvider.End (sp : serviceProvider σ) (st : σ) : Option error × σ := sp.«end» st

/-- A `*serviceProvider` seen through the interface `ServiceProvider`. -/
def serviceProvider.toServiceProvider (sp : serviceProvider σ) : ServiceProvider σ :=
  { GetName := sp.GetName, Begin := sp.Begin, End := sp.End }

/-- Function `NewServiceProvider` of `service_provider.go`.  A nil callable is
`none`; it is replaced by `func() error { return nil }`, which returns nil
and touches nothing. -/
def NewServiceProvider (name : String) (begin : Option (σ → Option error × σ))
    («end» : Option (σ → Option error × σ)) : ServiceProvider σ :=
  serviceProvider.toServiceProvider
    { name := name,
      begin := (match begin with
        | none => fun st => (none, st)
        | some f => f),
      «end» := (match «end» with
        | none => fun st => (none, st)
        | some f => f) }

/-- One call on the manager from its client. -/
inductive Op (σ : Type) where
  | AddService (services : List (ServiceProvider σ))
  | Start
  | Rollback

/-- Runs one client call on a manager and a world. -/
def exec : Op σ → Manager σ × World σ → Manager σ × World σ
  | Op.AddService services, (m, w) => (AddService m services, w)
  | Op.Start, (m, w) => ((Start m w).m, (Start m w).w)
  | Op.Rollback, (m, w) => ((Rollback m w).m, (Rollback m w).w)

/-- Runs a finite sequence of client calls, first to last. -/
def run (ops : List (Op σ)) (s : Manager σ × World σ) : Manager σ × World σ :=
  ops.foldl (fun s op => exec op s) s

/-! ## Concrete providers and scenarios

The client state is a counter of the calls made, as in providers that record
their own calls. -/

/-- The error value the failing providers return. -/
def usedErr : error := { msg := "error" }

/-- A provider whose `Begin` and `End` both succeed. -/
def noError (name : String) : ServiceProvider Nat :=
  { GetName := name, Begin := fun n => (none, n + 1), End := fun n => (none, n + 1) }

/-- A provider whose `Begin` fails. -/
def beginError (name : String) : ServiceProvider Nat :=
  { GetName := name, Begin := fun n => (some usedErr, n + 1), End := fun n => (none, n + 1) }

/-- A provider whose `End` fails. -/
def endError (name : String) : ServiceProvider Nat :=
  { GetName := name, Begin := fun n => (none, n + 1), End := fun n => (some usedErr, n + 1) }

/-- The world before any call. -/
def world0 : World Nat := { state := 0, calls := [] }

/-- Registered `[A, B, C]` where `B.Begin` fails; nothing started yet. -/
def midStartFailure : Manager Nat :=
  AddService NewManager [noError "A", beginError "B", noError "C"]

/-- Registered `[A, B, C]` where `C.Begin` fails; nothing started yet. -/
def lastStartFailure : Manager Nat :=
  AddService NewManager [noError "A", noError "B", beginError "C"]

/-- Registered `[A, B, C]`, every `Begin` and `End` succeeds. -/
def allSucceed : Manager Nat :=
  AddService NewManager [noError "A", noError "B", noError "C"]

/-- Registered and started `[A, B, C, D]` where `C.End` fails. -/
def midTeardownFailure : Manager Nat :=
  { services := [noError "A", noError "B", endError "C", noError "D"],
    startedServices := [noError "A", noError "B", endError "C", noError "D"] }

/-- Registered `[B]` where `B.Begin` fails; nothing started yet. -/
def singleStartFailure : Manager Nat :=
  AddService NewManager [beginError "B"]

/-- A provider whose `Begin` succeeds on the first call made in the world
and fails on every later one. -/
def firstCallOnly (name : String) : ServiceProvider Nat :=
  { GetName := name,
    Begin := fun n => (if n = 0 then none else some usedErr, n + 1),
    End := fun n => (none, n + 1) }

/-- Registered `[worker, worker]`: two equal providers, of which only the
first to be called begins successfully. -/
def twoWorkers : Manager Nat :=
  AddService NewManager [firstCallOnly "worker", firstCallOnly "worker"]

/-- Registered `[A]` where `A.Begin` succeeds once only. -/
def startTwice : Manager Nat :=
  AddService NewManager [firstCallOnly "A"]

/-- A callable that counts its calls in the first component of the state. -/
def countBegin : Nat × Nat → Option error × (Nat × Nat) :=
  fun st => (none, (st.1 + 1, st.2))

/-- A callable that counts its calls in the second component of the state
and returns an error. -/
def countEnd : Nat × Nat → Option error × (Nat × Nat) :=
  fun st => (some usedErr, (st.1, st.2 + 1))

/-! ## The fail-fast visit -/

theorem scan_ok (k : Method) (V : List (Nat × ServiceProvider σ)) :
    ∀ w : World σ, AllOk k (V.map Prod.snd) w.state →
      scan k V w = { fail := none, passed := V.length,
                     w := { state := afterAll k (V.map Prod.snd) w.state,
                            calls := w.calls ++ okCalls k V } } := by
  induction V with
  | nil => intro w _; simp [scan, afterAll, okCalls]
  | cons p V ih =>
    intro w h
    simp only [List.map_cons, AllOk] at h
    obtain ⟨h1, h2⟩ := h
    have := ih { state := (p.2.call k w.state).2,
                 calls := w.calls ++ [{ method := k, index := p.1, sp := p.2, ret := none }] } h2
    simp [scan, invoke, h1, this, afterAll, okCalls]

theorem scan_fail (k : Method) (pre : List (Nat × ServiceProvider σ))
    (p : Nat × ServiceProvider σ) (post : List (Nat × ServiceProvider σ)) (e : error) :
    ∀ w : World σ, AllOk k (pre.map Prod.snd) w.state →
      (p.2.call k (afterAll k (pre.map Prod.snd) w.state)).1 = some e →
      scan k (pre ++ p :: post) w =
        { fail := some (e, p), passed := pre.length,
          w := { state := (p.2.call k (afterAll k (pre.map Prod.snd) w.state)).2,
                 calls := w.calls ++ okCalls k pre ++
                   [{ method := k, index := p.1, sp := p.2, ret := some e }] } } := by
  induction pre with
  | nil => intro w _ hf; simp [afterAll] at hf; simp [scan, invoke, hf, afterAll, okCalls]
  | cons q pre ih =>
    intro w h hf
    simp only [List.map_cons, AllOk] at h
    obtain ⟨h1, h2⟩ := h
    simp only [List.map_cons, afterAll] at hf
    have := ih { state := (q.2.call k w.state).2,
                 calls := w.calls ++ [{ method := k, index := q.1, sp := q.2, ret := none }] } h2 hf
    simp [scan, invoke, h1, this, afterAll, okCalls]

theorem scan_split (k : Method) (V : List (Nat × ServiceProvider σ)) :
    ∀ st : σ, AllOk k (V.map Prod.snd) st ∨
      ∃ pre p post e, V = pre ++ p :: post ∧ AllOk k (pre.map Prod.snd) st ∧
        (p.2.call k (afterAll k (pre.map Prod.snd) st)).1 = some e := by
  induction V with
  | nil => intro st; left; trivial
  | cons q V ih =>
    intro st
    cases hq : (q.2.call k st).1 with
    | some e => right; exact ⟨[], q, V, e, rfl, trivial, by simpa [afterAll] using hq⟩
    | none =>
      rcases ih (q.2.call k st).2 with h | ⟨pre, p, post, e, hV, hpre, hp⟩
      · left; exact ⟨hq, h⟩
      · right
        refine ⟨q :: pre, p, post, e, by simp [hV], ⟨hq, hpre⟩, ?_⟩
        simpa [afterAll] using hp

/-! ## The two loops as fail-fast visits -/

theorem Start_loop_eq_scan (l : List (ServiceProvider σ)) :
    ∀ (i : Nat) (esp : Option (ServiceProvider σ)) (m : Manager σ) (w : World σ),
      Start.loop l i none esp m w =
        { res := (match (scan Method.Begin (l.enumFrom i) w).fail with
                  | some (e, p) => { err := some e, errServiceProvider := some p.2 }
                  | none => { err := none, errServiceProvider := esp }),
          m := { m with startedServices :=
                   m.startedServices ++ l.take (scan Method.Begin (l.enumFrom i) w).passed },
          w := (scan Method.Begin (l.enumFrom i) w).w } := by
  induction l with
  | nil => intro i esp m w; simp [Start.loop, scan]
  | cons s l ih =>
    intro i esp m w
    cases hs : (s.call Method.Begin w.state).1 with
    | some e => simp [Start.loop, scan, invoke, hs]
    | none => simp [Start.loop, scan, invoke, hs, ih]

theorem Start_eq_scan (m : Manager σ) (w : World σ) :
    Start m w =
      { res := (scan Method.Begin m.services.enum w).result,
        m := { services := m.services,
               startedServices := m.services.take (scan Method.Begin m.services.enum w).passed },
        w := (scan Method.Begin m.services.enum w).w } := by
  unfold Start
  rw [Start_loop_eq_scan]
  simp only [List.enum, Scan.result, List.nil_append]

theorem enum_take_succ (l : List (ServiceProvider σ)) (i : Nat) (h : i < l.length) :
    (l.enum.take (i + 1)).reverse = (i, l.get ⟨i, h⟩) :: (l.enum.take i).reverse := by
  rw [List.take_succ]
  simp [List.getElem?_enum, List.getElem?_eq_getElem h]

theorem Rollback_loop_eq_scan (m : Manager σ) :
    ∀ (n : Nat) (h : n ≤ m.startedServices.length) (esp : Option (ServiceProvider σ))
      (w : World σ),
      Rollback.loop m n h none esp w =
        { res := (match (scan Method.End (m.startedServices.enum.take n).reverse w).fail with
                  | some (e, p) => { err := some e, errServiceProvider := some p.2 }
                  | none => { err := none, errServiceProvider := esp }),
          m := m,
          w := (scan Method.End (m.startedServices.enum.take n).reverse w).w } := by
  intro n
  induction n with
  | zero => intro h esp w; simp [Rollback.loop, scan]
  | succ i ih =>
    intro h esp w
    rw [enum_take_succ m.startedServices i h]
    cases hs : ((m.startedServices.get ⟨i, h⟩).call Method.End w.state).1 with
    | some e =>
      rw [List.get_eq_getElem] at hs
      simp [Rollback.loop, scan, invoke, hs]
    | none =>
      rw [List.get_eq_getElem] at hs
      simp [Rollback.loop, scan, invoke, hs, ih]

theorem Rollback_eq_scan (m : Manager σ) (w : World σ) :
    Rollback m w =
      { res := (scan Method.End m.startedServices.enum.reverse w).result,
        m := m,
        w := (scan Method.End m.startedServices.enum.reverse w).w } := by
  unfold Rollback
  rw [Rollback_loop_eq_scan]
  have : m.startedServices.enum.take m.startedServices.length = m.startedServices.enum := by
    apply List.take_of_length_le; simp
  simp only [this, Scan.result]

/-! ## Splitting an enumerated list at an index -/

theorem enum_split (l : List (ServiceProvider σ)) (k : Nat) (hk : k < l.length) :
    l.enum = l.enum.take k ++ (k, l.get ⟨k, hk⟩) :: l.enum.drop (k + 1) := by
  have h1 : k < l.enum.length := by simpa using hk
  have h2 : l.enum.drop k = l.enum[k] :: l.enum.drop (k + 1) := List.drop_eq_getElem_cons h1
  have h3 : l.enum[k] = (k, l.get ⟨k, hk⟩) := by simp [List.getElem_enum]
  rw [← h3, ← h2, List.take_append_drop]

theorem enum_take_snd (l : List (ServiceProvider σ)) (k : Nat) :
    (l.enum.take k).map Prod.snd = l.take k := by
  rw [List.map_take, List.enum_map_snd]

theorem enum_drop_snd (l : List (ServiceProvider σ)) (k : Nat) :
    (l.enum.drop k).map Prod.snd = l.drop k := by
  rw [List.map_drop, List.enum_map_snd]

theorem enum_reverse_split (l : List (ServiceProvider σ)) (i : Nat) (hi : i < l.length) :
    l.enum.reverse =
      (l.enum.drop (i + 1)).reverse ++ (i, l.get ⟨i, hi⟩) :: (l.enum.take i).reverse := by
  conv_lhs => rw [enum_split l i hi]
  simp

theorem split_at_length {α : Type} (L A : List α) (p : α) (B : List α) (h : L = A ++ p :: B) :
    A.length < L.length ∧ A = L.take A.length ∧ B = L.drop (A.length + 1) ∧
      L[A.length]? = some p := by
  subst h
  refine ⟨by simp, by simp, by simp, ?_⟩
  rw [List.getElem?_append_right (Nat.le_refl _)]
  simp

/-! ## What a `Start` pass does -/

theorem Start_ok (m : Manager σ) (w : World σ)
    (h : AllOk Method.Begin m.services w.state) :
    Start m w =
      { res := { err := none, errServiceProvider := none },
        m := { services := m.services, startedServices := m.services },
        w := { state := afterAll Method.Begin m.services w.state,
               calls := w.calls ++ okCalls Method.Begin m.services.enum } } := by
  have hs := scan_ok Method.Begin m.services.enum w (by rwa [List.enum_map_snd])
  rw [Start_eq_scan, hs]
  simp [Scan.result, List.enum_map_snd]

theorem Start_fail (m : Manager σ) (w : World σ) (k : Nat) (hk : k < m.services.length)
    (e : error) (hb : AllOk Method.Begin (m.services.take k) w.state)
    (hf : ((m.services.get ⟨k, hk⟩).call Method.Begin
            (afterAll Method.Begin (m.services.take k) w.state)).1 = some e) :
    Start m w =
      { res := { err := some e, errServiceProvider := some (m.services.get ⟨k, hk⟩) },
        m := { services := m.services, startedServices := m.services.take k },
        w := { state := ((m.services.get ⟨k, hk⟩).call Method.Begin
                          (afterAll Method.Begin (m.services.take k) w.state)).2,
               calls := w.calls ++ okCalls Method.Begin (m.services.enum.take k) ++
                 [{ method := Method.Begin, index := k, sp := m.services.get ⟨k, hk⟩,
                    ret := some e }] } } := by
  have hs := scan_fail Method.Begin (m.services.enum.take k) (k, m.services.get ⟨k, hk⟩)
    (m.services.enum.drop (k + 1)) e w (by rwa [enum_take_snd])
    (by rw [enum_take_snd]; exact hf)
  rw [← enum_split m.services k hk] at hs
  rw [Start_eq_scan, hs]
  have hlen : min k m.services.length = k := Nat.min_eq_left (Nat.le_of_lt hk)
  simp [Scan.result, enum_take_snd, hlen]

theorem Start_cases (m : Manager σ) (w : World σ) :
    AllOk Method.Begin m.services w.state ∨
      ∃ (k : Nat) (hk : k < m.services.length) (e : error),
        AllOk Method.Begin (m.services.take k) w.state ∧
        ((m.services.get ⟨k, hk⟩).call Method.Begin
          (afterAll Method.Begin (m.services.take k) w.state)).1 = some e := by
  rcases scan_split Method.Begin m.services.enum w.state with h | ⟨pre, p, post, e, hV, hpre, hp⟩
  · left; rwa [List.enum_map_snd] at h
  · right
    obtain ⟨h1, h2, _, h4⟩ := split_at_length _ _ _ _ hV
    have hk : pre.length < m.services.length := by simpa using h1
    have hp2 : p = (pre.length, m.services.get ⟨pre.length, hk⟩) := by
      rw [List.getElem?_enum, List.getElem?_eq_getElem hk] at h4
      simpa using h4.symm
    refine ⟨pre.length, hk, e, ?_, ?_⟩
    · rw [h2, enum_take_snd] at hpre; exact hpre
    · rw [h2, enum_take_snd, hp2] at hp; exact hp

/-! ## What a `Rollback` pass does -/

theorem enum_reverse_snd (l : List (ServiceProvider σ)) :
    l.enum.reverse.map Prod.snd = l.reverse := by
  rw [List.map_reverse, List.enum_map_snd]

theorem enum_drop_reverse_snd (l : List (ServiceProvider σ)) (i : Nat) :
    (l.enum.drop i).reverse.map Prod.snd = (l.drop i).reverse := by
  rw [List.map_reverse, enum_drop_snd]

theorem Rollback_ok (m : Manager σ) (w : World σ)
    (h : AllOk Method.End m.startedServices.reverse w.state) :
    Rollback m w =
      { res := { err := none, errServiceProvider := none },
        m := m,
        w := { state := afterAll Method.End m.startedServices.reverse w.state,
               calls := w.calls ++ okCalls Method.End m.startedServices.enum.reverse } } := by
  have hs := scan_ok Method.End m.startedServices.enum.reverse w (by rwa [enum_reverse_snd])
  rw [Rollback_eq_scan, hs]
  simp [Scan.result, enum_reverse_snd]

theorem Rollback_fail (m : Manager σ) (w : World σ) (i : Nat)
    (hi : i < m.startedServices.length) (e : error)
    (hb : AllOk Method.End (m.startedServices.drop (i + 1)).reverse w.state)
    (hf : ((m.startedServices.get ⟨i, hi⟩).call Method.End
            (afterAll Method.End (m.startedServices.drop (i + 1)).reverse w.state)).1 = some e) :
    Rollback m w =
      { res := { err := some e, errServiceProvider := some (m.startedServices.get ⟨i, hi⟩) },
        m := m,
        w := { state := ((m.startedServices.get ⟨i, hi⟩).call Method.End
                          (afterAll Method.End (m.startedServices.drop (i + 1)).reverse w.state)).2,
               calls := w.calls ++ okCalls Method.End (m.startedServices.enum.drop (i + 1)).reverse ++
                 [{ method := Method.End, index := i, sp := m.startedServices.get ⟨i, hi⟩,
                    ret := some e }] } } := by
  have hs := scan_fail Method.End (m.startedServices.enum.drop (i + 1)).reverse
    (i, m.startedServices.get ⟨i, hi⟩) (m.startedServices.enum.take i).reverse e w
    (by rwa [enum_drop_reverse_snd]) (by rw [enum_drop_reverse_snd]; exact hf)
  rw [← enum_reverse_split m.startedServices i hi] at hs
  rw [Rollback_eq_scan, hs]
  simp [Scan.result, enum_drop_reverse_snd]

theorem Rollback_cases (m : Manager σ) (w : World σ) :
    AllOk Method.End m.startedServices.reverse w.state ∨
      ∃ (i : Nat) (hi : i < m.startedServices.length) (e : error),
        AllOk Method.End (m.startedServices.drop (i + 1)).reverse w.state ∧
        ((m.startedServices.get ⟨i, hi⟩).call Method.End
          (afterAll Method.End (m.startedServices.drop (i + 1)).reverse w.state)).1 = some e := by
  rcases scan_split Method.End m.startedServices.enum.reverse w.state with
    h | ⟨pre, p, post, e, hV, hpre, hp⟩
  · left; rwa [enum_reverse_snd] at h
  · right
    have hV2 : m.startedServices.enum = post.reverse ++ p :: pre.reverse := by
      have := congrArg List.reverse hV
      simpa using this
    obtain ⟨h1, _, h3, h4⟩ := split_at_length _ _ _ _ hV2
    have hi : post.reverse.length < m.startedServices.length := by simpa using h1
    have hp2 : p = (post.reverse.length, m.startedServices.get ⟨post.reverse.length, hi⟩) := by
      rw [List.getElem?_enum, List.getElem?_eq_getElem hi] at h4
      simpa using h4.symm
    have hpre2 : pre = (m.startedServices.enum.drop (post.reverse.length + 1)).reverse := by
      rw [← h3, List.reverse_reverse]
    refine ⟨post.reverse.length, hi, e, ?_, ?_⟩
    · rw [hpre2, enum_drop_reverse_snd] at hpre; exact hpre
    · rw [hpre2, enum_drop_reverse_snd, hp2] at hp; exact hp

/-! ## Bookkeeping on the call record -/

theorem enumFrom_take (l : List (ServiceProvider σ)) :
    ∀ (k n : Nat), (l.take k).enumFrom n = (l.enumFrom n).take k := by
  induction l with
  | nil => intro k n; simp
  | cons a l ih =>
    intro k n
    cases k with
    | zero => simp
    | succ k => simp [ih]

theorem enum_take (l : List (ServiceProvider σ)) (k : Nat) :
    (l.take k).enum = l.enum.take k :=
  enumFrom_take l k 0

theorem newCalls_append (P : Pass σ) (w : World σ) (t : List (Call σ))
    (h : P.w.calls = w.calls ++ t) : P.newCalls w = t := by
  unfold Pass.newCalls
  rw [h, List.drop_left]

theorem okCalls_method (k : Method) (V : List (Nat × ServiceProvider σ)) :
    ∀ c ∈ okCalls k V, c.method = k ∧ c.ret = none ∧ (c.index, c.sp) ∈ V := by
  intro c hc
  unfold okCalls at hc
  rw [List.mem_map] at hc
  obtain ⟨p, hp, rfl⟩ := hc
  exact ⟨rfl, rfl, hp⟩

/-- What `Start` adds to the call record, whatever the providers do: the
successful `Begin` calls on a prefix of `services`, then at most one failed
`Begin` call, on the next provider. -/
theorem Start_calls (m : Manager σ) (w : World σ) :
    (AllOk Method.Begin m.services w.state ∧
      (Start m w).m.startedServices = m.services ∧
      (Start m w).res = { err := none, errServiceProvider := none } ∧
      (Start m w).w.calls = w.calls ++ okCalls Method.Begin m.services.enum) ∨
    (∃ (k : Nat) (hk : k < m.services.length) (e : error),
      AllOk Method.Begin (m.services.take k) w.state ∧
      ((m.services.get ⟨k, hk⟩).Begin
        (afterAll Method.Begin (m.services.take k) w.state)).1 = some e ∧
      (Start m w).m.startedServices = m.services.take k ∧
      (Start m w).res = { err := some e, errServiceProvider := some (m.services.get ⟨k, hk⟩) } ∧
      (Start m w).w.calls = w.calls ++ (okCalls Method.Begin (m.services.enum.take k) ++
        [{ method := Method.Begin, index := k, sp := m.services.get ⟨k, hk⟩, ret := some e }])) := by
  rcases Start_cases m w with h | ⟨k, hk, e, hb, hf⟩
  · left
    rw [Start_ok m w h]
    exact ⟨h, rfl, rfl, rfl⟩
  · right
    refine ⟨k, hk, e, hb, hf, ?_⟩
    rw [Start_fail m w k hk e hb hf]
    exact ⟨rfl, rfl, by simp⟩

/-- What `Rollback` adds to the call record, whatever the providers do. -/
theorem Rollback_calls (m : Manager σ) (w : World σ) :
    (AllOk Method.End m.startedServices.reverse w.state ∧
      (Rollback m w).res = { err := none, errServiceProvider := none } ∧
      (Rollback m w).w.calls = w.calls ++ okCalls Method.End m.startedServices.enum.reverse) ∨
    (∃ (i : Nat) (hi : i < m.startedServices.length) (e : error),
      AllOk Method.End (m.startedServices.drop (i + 1)).reverse w.state ∧
      ((m.startedServices.get ⟨i, hi⟩).End
        (afterAll Method.End (m.startedServices.drop (i + 1)).reverse w.state)).1 = some e ∧
      (Rollback m w).res =
        { err := some e, errServiceProvider := some (m.startedServices.get ⟨i, hi⟩) } ∧
      (Rollback m w).w.calls =
        w.calls ++ (okCalls Method.End (m.startedServices.enum.drop (i + 1)).reverse ++
          [{ method := Method.End, index := i, sp := m.startedServices.get ⟨i, hi⟩,
             ret := some e }])) := by
  rcases Rollback_cases m w with h | ⟨i, hi, e, hb, hf⟩
  · left
    rw [Rollback_ok m w h]
    exact ⟨h, rfl, rfl⟩
  · right
    refine ⟨i, hi, e, hb, hf, ?_⟩
    rw [Rollback_fail m w i hi e hb hf]
    exact ⟨rfl, by simp⟩

theorem Rollback_m (m : Manager σ) (w : World σ) : (Rollback m w).m = m := by
  rw [Rollback_eq_scan]

theorem Start_services (m : Manager σ) (w : World σ) :
    (Start m w).m.services = m.services := by
  rw [Start_eq_scan]

/-- Two failure points of one visit coincide: the first failing index is
determined by the providers and the state. -/
theorem first_failure_unique (k : Method) (l : List (ServiceProvider σ)) :
    ∀ (st : σ) (a b : Nat) (ha : a < l.length) (hb : b < l.length),
      AllOk k (l.take a) st → ((l.get ⟨a, ha⟩).call k (afterAll k (l.take a) st)).1 ≠ none →
      AllOk k (l.take b) st → ((l.get ⟨b, hb⟩).call k (afterAll k (l.take b) st)).1 ≠ none →
      a = b := by
  induction l with
  | nil => intro st a b ha; simp at ha
  | cons s l ih =>
    intro st a b ha hb h1 h2 h3 h4
    cases a with
    | zero =>
      cases b with
      | zero => rfl
      | succ b =>
        simp only [List.take_succ_cons, AllOk] at h3
        simp [afterAll] at h2
        exact absurd h3.1 h2
    | succ a =>
      cases b with
      | zero =>
        simp only [List.take_succ_cons, AllOk] at h1
        simp [afterAll] at h4
        exact absurd h1.1 h4
      | succ b =>
        simp only [List.take_succ_cons, AllOk] at h1 h3
        simp only [List.take_succ_cons, afterAll, List.get_eq_getElem,
          List.getElem_cons_succ] at h2 h4
        have := ih (s.call k st).2 a b (by simpa using ha) (by simpa using hb) h1.2
          (by simpa using h2) h3.2 (by simpa using h4)
        rw [this]

/-- A visit that succeeds everywhere has no failure point. -/
theorem AllOk_no_failure (k : Method) (l : List (ServiceProvider σ)) :
    ∀ (st : σ) (a : Nat) (ha : a < l.length), AllOk k l st →
      ((l.get ⟨a, ha⟩).call k (afterAll k (l.take a) st)).1 = none := by
  induction l with
  | nil => intro st a ha; simp at ha
  | cons s l ih =>
    intro st a ha h
    cases a with
    | zero => simpa [afterAll] using h.1
    | succ a =>
      have := ih (s.call k st).2 a (by simpa using ha) h.2
      simpa [afterAll] using this

theorem okCalls_pairs (k : Method) (V : List (Nat × ServiceProvider σ)) :
    (okCalls k V).map (fun c => (c.index, c.sp)) = V := by
  unfold okCalls
  rw [List.map_map]
  exact List.map_id _

theorem okCalls_length (k : Method) (V : List (Nat × ServiceProvider σ)) :
    (okCalls k V).length = V.length := by
  unfold okCalls
  exact List.length_map _ _

theorem index_of_mem_enum_drop (l : List (ServiceProvider σ)) (i : Nat)
    (p : Nat × ServiceProvider σ) (h : p ∈ l.enum.drop i) : i ≤ p.1 := by
  obtain ⟨n, hn, hget⟩ := List.mem_drop_iff_getElem.1 h
  rw [List.getElem_enum] at hget
  rw [← hget]
  exact Nat.le_add_right i n

theorem enum_reverse_fst (l : List (ServiceProvider σ)) :
    l.enum.reverse.map Prod.fst = (List.range l.length).reverse := by
  rw [List.map_reverse, List.enum_map_fst]

/-- The calls `Rollback` adds are a prefix of the reversed, enumerated
`startedServices`; every call but the last returned nil; and the visit stops
short only on a failure. -/
theorem Rollback_trace_shape (m : Manager σ) (w : World σ) :
    (Rollback m w).w.calls = w.calls ++ (Rollback m w).newCalls w ∧
    ((Rollback m w).newCalls w).map (fun c => (c.index, c.sp)) =
      m.startedServices.enum.reverse.take ((Rollback m w).newCalls w).length ∧
    (∀ c ∈ (Rollback m w).newCalls w, c.method = Method.End) ∧
    (∀ c ∈ ((Rollback m w).newCalls w).dropLast, c.ret = none) ∧
    (((Rollback m w).newCalls w).length < m.startedServices.length →
      ∃ c, ((Rollback m w).newCalls w).getLast? = some c ∧ c.ret ≠ none) ∧
    (∀ c ∈ (Rollback m w).newCalls w, c.ret ≠ none →
      ∀ d ∈ (Rollback m w).newCalls w, c.index ≤ d.index) ∧
    ((∀ c ∈ (Rollback m w).newCalls w, c.ret = none) →
      (Rollback m w).newCalls w = okCalls Method.End m.startedServices.enum.reverse) := by
  rcases Rollback_calls m w with ⟨_, _, hcalls⟩ | ⟨i, hi, e, _, _, _, hcalls⟩
  · have hnew := newCalls_append _ _ _ hcalls
    rw [hnew]
    refine ⟨hcalls, ?_, ?_, ?_, ?_, ?_, ?_⟩
    · rw [okCalls_pairs, okCalls_length, List.take_length]
    · intro c hc; exact (okCalls_method _ _ c hc).1
    · intro c hc; exact (okCalls_method _ _ c (List.mem_of_mem_dropLast hc)).2.1
    · intro hlt
      rw [okCalls_length] at hlt
      simp at hlt
    · intro c hc hne; exact absurd (okCalls_method _ _ c hc).2.1 hne
    · intro _; rfl
  · have hnew := newCalls_append _ _ _ hcalls
    rw [hnew]
    refine ⟨hcalls, ?_, ?_, ?_, ?_, ?_, ?_⟩
    · rw [List.map_append, okCalls_pairs, List.length_append, okCalls_length,
        enum_reverse_split m.startedServices i hi]
      simp [List.take_append_eq_append_take]
    · intro c hc
      rcases List.mem_append.1 hc with h1 | h1
      · exact (okCalls_method _ _ c h1).1
      · rw [List.mem_singleton] at h1; rw [h1]
    · intro c hc
      rw [List.dropLast_concat] at hc
      exact (okCalls_method _ _ c hc).2.1
    · intro _
      exact ⟨_, List.getLast?_concat _, Option.some_ne_none e⟩
    · intro c hc hne d hd
      have hci : c.index = i := by
        rcases List.mem_append.1 hc with h1 | h1
        · exact absurd (okCalls_method _ _ c h1).2.1 hne
        · rw [List.mem_singleton] at h1; rw [h1]
      rw [hci]
      rcases List.mem_append.1 hd with h1 | h1
      · have hmem := (okCalls_method _ _ d h1).2.2
        rw [List.mem_reverse] at hmem
        exact Nat.le_of_succ_le (index_of_mem_enum_drop _ _ _ hmem)
      · rw [List.mem_singleton] at h1; rw [h1]
    · intro hall
      have := hall _ (List.mem_append_right _ (List.mem_singleton_self _))
      exact absurd this (Option.some_ne_none e)

/-- The manager invariant: `startedServices` is a prefix of `services`. -/
theorem exec_keeps_invariant (op : Op σ) (s : Manager σ × World σ)
    (h : s.1.startedServices <+: s.1.services) :
    (exec op s).1.startedServices <+: (exec op s).1.services := by
  obtain ⟨m, w⟩ := s
  cases op with
  | AddService services =>
    exact List.IsPrefix.trans h (List.prefix_append _ _)
  | Start =>
    show (Start m w).m.startedServices <+: (Start m w).m.services
    rw [Start_eq_scan]
    exact List.take_prefix _ _
  | Rollback =>
    show (Rollback m w).m.startedServices <+: (Rollback m w).m.services
    rw [Rollback_m]
    exact h

theorem run_keeps_invariant (ops : List (Op σ)) :
    ∀ s : Manager σ × World σ, s.1.startedServices <+: s.1.services →
      (run ops s).1.startedServices <+: (run ops s).1.services := by
  induction ops with
  | nil => intro s h; exact h
  | cons op ops ih =>
    intro s h
    exact ih (exec op s) (exec_keeps_invariant op s h)

/-- Every call `Rollback` makes is on an enumerated element of
`startedServices`. -/
theorem Rollback_call_mem (m : Manager σ) (w : World σ) :
    ∀ c ∈ (Rollback m w).newCalls w, (c.index, c.sp) ∈ m.startedServices.enum := by
  intro c hc
  have h2 := (Rollback_trace_shape m w).2.1
  have hmem : (c.index, c.sp) ∈ ((Rollback m w).newCalls w).map (fun c => (c.index, c.sp)) :=
    List.mem_map_of_mem _ hc
  rw [h2] at hmem
  exact List.mem_reverse.1 (List.mem_of_mem_take hmem)

/-- The calls `Start` adds are `Begin` calls, appended to the record. -/
theorem Start_trace_shape (m : Manager σ) (w : World σ) :
    (Start m w).w.calls = w.calls ++ (Start m w).newCalls w ∧
    (∀ c ∈ (Start m w).newCalls w, c.method = Method.Begin) := by
  rcases Start_calls m w with ⟨_, _, _, hcalls⟩ | ⟨k, hk, e, _, _, _, _, hcalls⟩
  · rw [newCalls_append _ _ _ hcalls]
    exact ⟨hcalls, fun c hc => (okCalls_method _ _ c hc).1⟩
  · rw [newCalls_append _ _ _ hcalls]
    refine ⟨hcalls, ?_⟩
    intro c hc
    rcases List.mem_append.1 hc with h1 | h1
    · exact (okCalls_method _ _ c h1).1
    · rw [List.mem_singleton] at h1; rw [h1]

/-! ## The contract of the manager -/

/-- C1 (ordered, reversible bring-up).  Let `k` be the index of the first
registered provider whose `Begin` fails (`k = |services|` when none fails),
and let every `End` met on the way back succeed.  Then `Start` calls only
`Begin`, the `Rollback` that follows calls `End` on `services[k-1]`, ...,
`services[0]` in that order and nothing else, and it returns the empty
success `Result`. -/
theorem Start_then_Rollback_reverse (m : Manager σ) (w : World σ) (k : Nat)
    (hb : AllOk Method.Begin (m.services.take k) w.state)
    (hf : ∀ h : k < m.services.length,
      ((m.services.get ⟨k, h⟩).Begin
        (afterAll Method.Begin (m.services.take k) w.state)).1 ≠ none)
    (he : AllOk Method.End (m.services.take k).reverse (Start m w).w.state) :
    (∀ c ∈ (Start m w).newCalls w, c.method = Method.Begin) ∧
    (Rollback (Start m w).m (Start m w).w).w.calls =
      w.calls ++ (Start m w).newCalls w ++
        okCalls Method.End (m.services.enum.take k).reverse ∧
    (Rollback (Start m w).m (Start m w).w).newCalls (Start m w).w =
      okCalls Method.End (m.services.enum.take k).reverse ∧
    (Rollback (Start m w).m (Start m w).w).res =
      { err := none, errServiceProvider := none } := by
  have key : (Start m w).m.startedServices = m.services.take k ∧
      ∃ t, (Start m w).w.calls = w.calls ++ t ∧ ∀ c ∈ t, c.method = Method.Begin := by
    rcases Nat.lt_or_ge k m.services.length with hlt | hge
    · cases hval : ((m.services.get ⟨k, hlt⟩).Begin
          (afterAll Method.Begin (m.services.take k) w.state)).1 with
      | none => exact absurd hval (hf hlt)
      | some e =>
        rw [Start_fail m w k hlt e hb hval]
        refine ⟨rfl, _, List.append_assoc _ _ _, ?_⟩
        intro c hc
        rcases List.mem_append.1 hc with h1 | h1
        · exact (okCalls_method _ _ c h1).1
        · rw [List.mem_singleton] at h1; rw [h1]
    · have hfull : m.services.take k = m.services := List.take_of_length_le hge
      rw [hfull] at hb
      rw [Start_ok m w hb, hfull]
      exact ⟨rfl, _, rfl, fun c hc => (okCalls_method _ _ c hc).1⟩
  obtain ⟨hst, t, ht, htB⟩ := key
  have hnew : (Start m w).newCalls w = t := newCalls_append _ _ _ ht
  have hrev : AllOk Method.End (Start m w).m.startedServices.reverse (Start m w).w.state := by
    rw [hst]; exact he
  have hR := Rollback_ok (Start m w).m (Start m w).w hrev
  have henum : (Start m w).m.startedServices.enum.reverse = (m.services.enum.take k).reverse := by
    rw [hst, enum_take]
  rw [henum] at hR
  refine ⟨by rw [hnew]; exact htB, ?_, ?_, ?_⟩
  · rw [hR, hnew, ht]
  · exact newCalls_append _ _ _ (by rw [hR])
  · rw [hR]

/-- Witness of C1 on `[A, B, C]`: with `B.Begin` failing (`k = 1`) `End` is
called on `A`; with `C.Begin` failing (`k = 2`) `End` is called on `B`, then
on `A`. -/
theorem Start_then_Rollback_reverse_witness :
    (((Rollback (Start midStartFailure world0).m (Start midStartFailure world0).w).newCalls
        (Start midStartFailure world0).w).map (fun c => (c.index, c.sp.GetName)) = [(0, "A")] ∧
    (Rollback (Start midStartFailure world0).m (Start midStartFailure world0).w).newCalls
        (Start midStartFailure world0).w =
      okCalls Method.End (midStartFailure.services.enum.take 1).reverse) ∧
    (((Rollback (Start lastStartFailure world0).m (Start lastStartFailure world0).w).newCalls
        (Start lastStartFailure world0).w).map (fun c => (c.index, c.sp.GetName)) =
        [(1, "B"), (0, "A")] ∧
    (Rollback (Start lastStartFailure world0).m (Start lastStartFailure world0).w).newCalls
        (Start lastStartFailure world0).w =
      okCalls Method.End (lastStartFailure.services.enum.take 2).reverse) :=
  ⟨⟨by decide,
    (Start_then_Rollback_reverse midStartFailure world0 1 ⟨rfl, trivial⟩
      (fun _ => Option.some_ne_none usedErr) ⟨rfl, trivial⟩).2.2.1⟩,
   ⟨by decide,
    (Start_then_Rollback_reverse lastStartFailure world0 2 ⟨rfl, rfl, trivial⟩
      (fun _ => Option.some_ne_none usedErr) ⟨rfl, rfl, trivial⟩).2.2.1⟩⟩

/-- C2 (the result of `Start` is the first `Begin` failure, verbatim).
`Start` returns a non-nil error exactly when some provider, reached after
every provider before it began successfully, has its `Begin` return an
error; the `Result` then carries that provider and that very error value;
when there is no such provider the `Result` has nil error and nil provider. -/
theorem Start_result_first_Begin_failure (m : Manager σ) (w : World σ) :
    ((Start m w).res.GetError ≠ none ↔
      ∃ (k : Nat) (hk : k < m.services.length),
        AllOk Method.Begin (m.services.take k) w.state ∧
        ((m.services.get ⟨k, hk⟩).Begin
          (afterAll Method.Begin (m.services.take k) w.state)).1 ≠ none) ∧
    (∀ (k : Nat) (hk : k < m.services.length),
      AllOk Method.Begin (m.services.take k) w.state →
      ((m.services.get ⟨k, hk⟩).Begin
        (afterAll Method.Begin (m.services.take k) w.state)).1 ≠ none →
      (Start m w).res.GetErrServiceProvider = some (m.services.get ⟨k, hk⟩) ∧
      (Start m w).res.GetError =
        ((m.services.get ⟨k, hk⟩).Begin
          (afterAll Method.Begin (m.services.take k) w.state)).1) ∧
    ((¬ ∃ (k : Nat) (hk : k < m.services.length),
        AllOk Method.Begin (m.services.take k) w.state ∧
        ((m.services.get ⟨k, hk⟩).Begin
          (afterAll Method.Begin (m.services.take k) w.state)).1 ≠ none) →
      (Start m w).res = { err := none, errServiceProvider := none }) := by
  have second : ∀ (k : Nat) (hk : k < m.services.length),
      AllOk Method.Begin (m.services.take k) w.state →
      ((m.services.get ⟨k, hk⟩).Begin
        (afterAll Method.Begin (m.services.take k) w.state)).1 ≠ none →
      (Start m w).res.GetErrServiceProvider = some (m.services.get ⟨k, hk⟩) ∧
      (Start m w).res.GetError =
        ((m.services.get ⟨k, hk⟩).Begin
          (afterAll Method.Begin (m.services.take k) w.state)).1 := by
    intro k hk hb hne
    cases hval : ((m.services.get ⟨k, hk⟩).Begin
        (afterAll Method.Begin (m.services.take k) w.state)).1 with
    | none => exact absurd hval hne
    | some e =>
      rw [Start_fail m w k hk e hb hval]
      exact ⟨rfl, rfl⟩
  refine ⟨⟨?_, ?_⟩, second, ?_⟩
  · intro hne
    rcases Start_calls m w with ⟨_, _, hres, _⟩ | ⟨k, hk, e, hb, hf, _⟩
    · rw [hres] at hne; exact absurd rfl hne
    · exact ⟨k, hk, hb, by rw [hf]; exact Option.some_ne_none e⟩
  · rintro ⟨k, hk, hb, hne⟩
    rw [(second k hk hb hne).2]
    exact hne
  · intro hno
    rcases Start_calls m w with ⟨_, _, hres, _⟩ | ⟨k, hk, e, hb, hf, _⟩
    · exact hres
    · exact absurd ⟨k, hk, hb, by rw [hf]; exact Option.some_ne_none e⟩ hno

/-- Witness of C2 on `[A, B, C]` with `B.Begin` failing: the `Result` carries
`B` and the error `B.Begin` returned. -/
theorem Start_result_first_Begin_failure_witness :
    (Start midStartFailure world0).res.GetErrServiceProvider = some (beginError "B") ∧
    (Start midStartFailure world0).res.GetError = some usedErr :=
  (Start_result_first_Begin_failure midStartFailure world0).2.1 1 (by decide) ⟨rfl, trivial⟩
    (Option.some_ne_none usedErr)

/-- C3 (fail index).  If `Start` returns a failure and the `Begin` call that
returned the error was made at registration index `k`, then the offender in
the `Result` is the provider registered at index `k`; afterwards
`startedServices` is `services[0..k)`, of length `k`; `Begin` returned nil
at every index below `k`; and the `Begin` calls made are those at indices
`0, 1, ..., k` in that order, the last one returning the error, so none is
made at an index above `k`. -/
theorem Start_fail_index (m : Manager σ) (w : World σ) (k : Nat)
    (hk : k < m.services.length)
    (herr : (Start m w).res.GetError ≠ none)
    (hidx : ∃ c ∈ (Start m w).newCalls w, c.ret ≠ none ∧ c.index = k) :
    (Start m w).res.GetErrServiceProvider = some (m.services.get ⟨k, hk⟩) ∧
    (Start m w).m.startedServices = m.services.take k ∧
    (Start m w).m.startedServices.length = k ∧
    AllOk Method.Begin (m.services.take k) w.state ∧
    (Start m w).newCalls w =
      okCalls Method.Begin (m.services.enum.take k) ++
        [{ method := Method.Begin, index := k, sp := m.services.get ⟨k, hk⟩,
           ret := (Start m w).res.GetError }] ∧
    (Start m w).w.calls = w.calls ++ (Start m w).newCalls w ∧
    (∀ c ∈ (Start m w).newCalls w, c.index ≤ k) := by
  rcases Start_calls m w with ⟨_, _, hres, _⟩ | ⟨j, hj, e, hb, hf, hst, hres, hcalls⟩
  · rw [hres] at herr; exact absurd rfl herr
  · have hnew := newCalls_append _ _ _ hcalls
    have hjk : j = k := by
      obtain ⟨c, hc, hne, hci⟩ := hidx
      rw [hnew] at hc
      rcases List.mem_append.1 hc with h1 | h1
      · exact absurd (okCalls_method _ _ c h1).2.1 hne
      · rw [List.mem_singleton] at h1
        rw [← hci, h1]
    subst hjk
    refine ⟨by rw [hres]; rfl, hst, ?_, hb, ?_, ?_, ?_⟩
    · rw [hst, List.length_take]; exact Nat.min_eq_left (Nat.le_of_lt hj)
    · rw [hnew, hres]; rfl
    · rw [hnew, hcalls]
    · intro c hc
      rw [hnew] at hc
      rcases List.mem_append.1 hc with h1 | h1
      · have hmem := (okCalls_method _ _ c h1).2.2
        have h3 := List.mem_take_iff_getElem.1 hmem
        obtain ⟨i, hi, hget⟩ := h3
        have hi2 : i < j := (Nat.lt_min.1 hi).1
        rw [List.getElem_enum] at hget
        have : c.index = i := (congrArg Prod.fst hget).symm
        rw [this]; exact Nat.le_of_lt hi2
      · rw [List.mem_singleton] at h1; rw [h1]

/-- Witness of C3, at index `1` twice: on `[A, B, C]` with `B.Begin` failing,
and on two equal providers `[worker, worker]` of which the second fails to
begin. -/
theorem Start_fail_index_witness :
    ((Start midStartFailure world0).m.startedServices = midStartFailure.services.take 1 ∧
      ((Start midStartFailure world0).newCalls world0).map
          (fun c => (c.index, c.sp.GetName)) = [(0, "A"), (1, "B")]) ∧
    ((Start twoWorkers world0).res.GetErrServiceProvider = some (firstCallOnly "worker") ∧
      (Start twoWorkers world0).m.startedServices = twoWorkers.services.take 1) :=
  ⟨⟨(Start_fail_index midStartFailure world0 1 (by decide) (by decide)
        ⟨{ method := Method.Begin, index := 1, sp := beginError "B", ret := some usedErr },
          List.mem_cons_of_mem _ (List.mem_cons_self _ _),
          Option.some_ne_none usedErr, rfl⟩).2.1,
     by decide⟩,
   ⟨(Start_fail_index twoWorkers world0 1 (by decide) (by decide)
        ⟨{ method := Method.Begin, index := 1, sp := firstCallOnly "worker",
           ret := some usedErr },
          List.mem_cons_of_mem _ (List.mem_cons_self _ _),
          Option.some_ne_none usedErr, rfl⟩).1,
    (Start_fail_index twoWorkers world0 1 (by decide) (by decide)
        ⟨{ method := Method.Begin, index := 1, sp := firstCallOnly "worker",
           ret := some usedErr },
          List.mem_cons_of_mem _ (List.mem_cons_self _ _),
          Option.some_ne_none usedErr, rfl⟩).2.1⟩⟩

/-- C4 (full success).  If every registered provider's `Begin` returns nil
during the pass, `Start` calls `Begin` once on each registered provider, in
registration order, returns the empty success `Result`, and leaves
`startedServices` equal to `services`. -/
theorem Start_full_success (m : Manager σ) (w : World σ)
    (h : AllOk Method.Begin m.services w.state) :
    (Start m w).newCalls w = okCalls Method.Begin m.services.enum ∧
    (Start m w).w.calls = w.calls ++ okCalls Method.Begin m.services.enum ∧
    (Start m w).res = { err := none, errServiceProvider := none } ∧
    (Start m w).m.startedServices = m.services ∧
    (Start m w).m.startedServices.length = m.services.length := by
  rw [Start_ok m w h]
  exact ⟨newCalls_append _ _ _ rfl, rfl, rfl, rfl, rfl⟩

/-- Witness of C4 on `[A, B, C]` with every `Begin` succeeding. -/
theorem Start_full_success_witness :
    ((Start allSucceed world0).newCalls world0).map (fun c => (c.index, c.sp.GetName)) =
      [(0, "A"), (1, "B"), (2, "C")] ∧
    (Start allSucceed world0).m.startedServices = allSucceed.services :=
  ⟨by decide, (Start_full_success allSucceed world0 ⟨rfl, rfl, rfl, trivial⟩).2.2.2.1⟩

/-- C5 (reverse teardown trace).  The `End` calls `Rollback` makes are the
reversed `startedServices`, index by index from `|startedServices| - 1`
downwards, cut off right after the first `End` that returns an error: every
call before the last returned nil, the visit stops short only on a failing
call, no index below a failing call is visited, and when no `End` fails
every element is visited exactly once. -/
theorem Rollback_reverse_trace (m : Manager σ) (w : World σ) :
    (Rollback m w).w.calls = w.calls ++ (Rollback m w).newCalls w ∧
    ((Rollback m w).newCalls w).map (fun c => (c.index, c.sp)) =
      m.startedServices.enum.reverse.take ((Rollback m w).newCalls w).length ∧
    ((Rollback m w).newCalls w).map (fun c => c.index) =
      (List.range m.startedServices.length).reverse.take ((Rollback m w).newCalls w).length ∧
    (((Rollback m w).newCalls w).map (fun c => c.index)).Pairwise (fun a b => b < a) ∧
    (∀ c ∈ (Rollback m w).newCalls w, c.method = Method.End) ∧
    (∀ c ∈ ((Rollback m w).newCalls w).dropLast, c.ret = none) ∧
    (((Rollback m w).newCalls w).length < m.startedServices.length →
      ∃ c, ((Rollback m w).newCalls w).getLast? = some c ∧ c.ret ≠ none) ∧
    (∀ c ∈ (Rollback m w).newCalls w, c.ret ≠ none →
      ∀ d ∈ (Rollback m w).newCalls w, c.index ≤ d.index) ∧
    ((∀ c ∈ (Rollback m w).newCalls w, c.ret = none) →
      (Rollback m w).newCalls w = okCalls Method.End m.startedServices.enum.reverse) := by
  obtain ⟨h1, h2, h3, h4, h5, h6, h7⟩ := Rollback_trace_shape m w
  have hidx : ((Rollback m w).newCalls w).map (fun c => c.index) =
      (List.range m.startedServices.length).reverse.take
        ((Rollback m w).newCalls w).length := by
    have := congrArg (List.map Prod.fst) h2
    rw [List.map_map, List.map_take, enum_reverse_fst] at this
    exact this
  refine ⟨h1, h2, hidx, ?_, h3, h4, h5, h6, h7⟩
  rw [hidx]
  apply List.Pairwise.take
  rw [List.pairwise_reverse]
  exact List.pairwise_lt_range _

/-- Witness of C5 on `[A, B, C, D]` with `C.End` failing: `D.End` then `C.End`
are called, `A.End` and `B.End` are not. -/
theorem Rollback_reverse_trace_witness :
    ((Rollback midTeardownFailure world0).newCalls world0).map
        (fun c => (c.index, c.sp.GetName, c.ret)) =
      [(3, "D", none), (2, "C", some usedErr)] ∧
    ((Rollback midTeardownFailure world0).newCalls world0).map (fun c => c.index) =
      (List.range midTeardownFailure.startedServices.length).reverse.take
        ((Rollback midTeardownFailure world0).newCalls world0).length :=
  ⟨by decide, (Rollback_reverse_trace midTeardownFailure world0).2.2.1⟩

/-- C6 (the result of `Rollback` is the first teardown failure, verbatim).
`Rollback` returns a non-nil error exactly when some element of
`startedServices`, reached after every element above it ended successfully,
has its `End` return an error; the `Result` then carries that element and
that very error value; when there is no such element the `Result` has nil
error and nil provider. -/
theorem Rollback_result_first_End_failure (m : Manager σ) (w : World σ) :
    ((Rollback m w).res.GetError ≠ none ↔
      ∃ (i : Nat) (hi : i < m.startedServices.length),
        AllOk Method.End (m.startedServices.drop (i + 1)).reverse w.state ∧
        ((m.startedServices.get ⟨i, hi⟩).End
          (afterAll Method.End (m.startedServices.drop (i + 1)).reverse w.state)).1 ≠ none) ∧
    (∀ (i : Nat) (hi : i < m.startedServices.length),
      AllOk Method.End (m.startedServices.drop (i + 1)).reverse w.state →
      ((m.startedServices.get ⟨i, hi⟩).End
        (afterAll Method.End (m.startedServices.drop (i + 1)).reverse w.state)).1 ≠ none →
      (Rollback m w).res.GetErrServiceProvider = some (m.startedServices.get ⟨i, hi⟩) ∧
      (Rollback m w).res.GetError =
        ((m.startedServices.get ⟨i, hi⟩).End
          (afterAll Method.End (m.startedServices.drop (i + 1)).reverse w.state)).1) ∧
    ((¬ ∃ (i : Nat) (hi : i < m.startedServices.length),
        AllOk Method.End (m.startedServices.drop (i + 1)).reverse w.state ∧
        ((m.startedServices.get ⟨i, hi⟩).End
          (afterAll Method.End (m.startedServices.drop (i + 1)).reverse w.state)).1 ≠ none) →
      (Rollback m w).res = { err := none, errServiceProvider := none }) := by
  have second : ∀ (i : Nat) (hi : i < m.startedServices.length),
      AllOk Method.End (m.startedServices.drop (i + 1)).reverse w.state →
      ((m.startedServices.get ⟨i, hi⟩).End
        (afterAll Method.End (m.startedServices.drop (i + 1)).reverse w.state)).1 ≠ none →
      (Rollback m w).res.GetErrServiceProvider = some (m.startedServices.get ⟨i, hi⟩) ∧
      (Rollback m w).res.GetError =
        ((m.startedServices.get ⟨i, hi⟩).End
          (afterAll Method.End (m.startedServices.drop (i + 1)).reverse w.state)).1 := by
    intro i hi hb hne
    cases hval : ((m.startedServices.get ⟨i, hi⟩).End
        (afterAll Method.End (m.startedServices.drop (i + 1)).reverse w.state)).1 with
    | none => exact absurd hval hne
    | some e =>
      rw [Rollback_fail m w i hi e hb hval]
      exact ⟨rfl, rfl⟩
  refine ⟨⟨?_, ?_⟩, second, ?_⟩
  · intro hne
    rcases Rollback_calls m w with ⟨_, hres, _⟩ | ⟨i, hi, e, hb, hf, _⟩
    · rw [hres] at hne; exact absurd rfl hne
    · exact ⟨i, hi, hb, by rw [hf]; exact Option.some_ne_none e⟩
  · rintro ⟨i, hi, hb, hne⟩
    rw [(second i hi hb hne).2]
    exact hne
  · intro hno
    rcases Rollback_calls m w with ⟨_, hres, _⟩ | ⟨i, hi, e, hb, hf, _⟩
    · exact hres
    · exact absurd ⟨i, hi, hb, by rw [hf]; exact Option.some_ne_none e⟩ hno

/-- Witness of C6 on `[A, B, C, D]` with `C.End` failing: the `Result` carries
`C` and the error `C.End` returned. -/
theorem Rollback_result_first_End_failure_witness :
    (Rollback midTeardownFailure world0).res.GetErrServiceProvider = some (endError "C") ∧
    (Rollback midTeardownFailure world0).res.GetError = some usedErr :=
  (Rollback_result_first_End_failure midTeardownFailure world0).2.1 2 (by decide)
    ⟨rfl, trivial⟩ (Option.some_ne_none usedErr)

/-- C7 (outcome coupling).  In the `Result` of `Start` and in the `Result`
of `Rollback`, from any manager and world, `GetError` is nil exactly when
`GetErrServiceProvider` is nil. -/
theorem Result_coupling (m : Manager σ) (w : World σ) :
    ((Start m w).res.GetError = none ↔ (Start m w).res.GetErrServiceProvider = none) ∧
    ((Rollback m w).res.GetError = none ↔
      (Rollback m w).res.GetErrServiceProvider = none) := by
  constructor
  · rcases Start_calls m w with ⟨_, _, hres, _⟩ | ⟨k, hk, e, _, _, _, hres, _⟩
    · rw [hres]; exact ⟨fun _ => rfl, fun _ => rfl⟩
    · rw [hres]
      exact ⟨fun h => absurd h (Option.some_ne_none e),
             fun h => absurd h (Option.some_ne_none _)⟩
  · rcases Rollback_calls m w with ⟨_, hres, _⟩ | ⟨i, hi, e, _, _, hres, _⟩
    · rw [hres]; exact ⟨fun _ => rfl, fun _ => rfl⟩
    · rw [hres]
      exact ⟨fun h => absurd h (Option.some_ne_none e),
             fun h => absurd h (Option.some_ne_none _)⟩

/-- C8 (prefix invariant).  After any finite sequence of `AddService`,
`Start` and `Rollback` calls on a manager made by `NewManager`,
`startedServices` is a prefix of `services`, so it is no longer than
`services`. -/
theorem started_prefix_of_services (ops : List (Op σ)) (w : World σ) :
    (run ops (NewManager, w)).1.startedServices <+: (run ops (NewManager, w)).1.services ∧
    (run ops (NewManager, w)).1.startedServices.length ≤
      (run ops (NewManager, w)).1.services.length := by
  have h := run_keeps_invariant ops (NewManager, w) (List.prefix_refl _)
  exact ⟨h, List.IsPrefix.length_le h⟩

/-- C9 (no implicit rollback).  `Start` calls `Begin` only, never `End`,
whether it succeeds or fails; and when the first failing `Begin` is at index
`k`, the providers at indices `0..k-1` are what `startedServices` holds
afterwards. -/
theorem Start_never_calls_End (m : Manager σ) (w : World σ) :
    (Start m w).w.calls = w.calls ++ (Start m w).newCalls w ∧
    (∀ c ∈ (Start m w).newCalls w, c.method = Method.Begin) ∧
    (∀ (k : Nat) (hk : k < m.services.length),
      AllOk Method.Begin (m.services.take k) w.state →
      ((m.services.get ⟨k, hk⟩).Begin
        (afterAll Method.Begin (m.services.take k) w.state)).1 ≠ none →
      (Start m w).m.startedServices = m.services.take k) ∧
    (∀ c ∈ (Start m w).newCalls w, c.ret ≠ none →
      (Start m w).m.startedServices = m.services.take c.index) := by
  refine ⟨(Start_trace_shape m w).1, (Start_trace_shape m w).2, ?_, ?_⟩
  · intro k hk hb hne
    cases hval : ((m.services.get ⟨k, hk⟩).Begin
        (afterAll Method.Begin (m.services.take k) w.state)).1 with
    | none => exact absurd hval hne
    | some e => rw [Start_fail m w k hk e hb hval]
  · rcases Start_calls m w with ⟨_, _, _, hcalls⟩ | ⟨k, hk, e, _, _, hst, _, hcalls⟩
    · rw [newCalls_append _ _ _ hcalls]
      intro c hc hne; exact absurd (okCalls_method _ _ c hc).2.1 hne
    · rw [newCalls_append _ _ _ hcalls]
      intro c hc hne
      rcases List.mem_append.1 hc with h1 | h1
      · exact absurd (okCalls_method _ _ c h1).2.1 hne
      · rw [List.mem_singleton] at h1; rw [h1]; exact hst

/-- Witness of C9 on `[A, B, C]` with `B.Begin` failing: `A` stays recorded
as started and only `Begin` calls were made. -/
theorem Start_never_calls_End_witness :
    (Start midStartFailure world0).m.startedServices = midStartFailure.services.take 1 ∧
    ((Start midStartFailure world0).newCalls world0).map (fun c => (c.method, c.sp.GetName)) =
      [(Method.Begin, "A"), (Method.Begin, "B")] :=
  ⟨(Start_never_calls_End midStartFailure world0).2.2.1 1 (by decide) ⟨rfl, trivial⟩
      (Option.some_ne_none usedErr),
   by decide⟩

/-- C10 (no crossover).  After one `Start` followed by one `Rollback`, the
calls made are the `Begin` calls of `Start` followed by the `End` calls of
`Rollback`; each `End` call is at a registration index, on the provider
registered there, at which `Start` called `Begin` and got nil; and every
`End` call is at an index below that of a `Begin` call that failed. -/
theorem no_crossover (m : Manager σ) (w : World σ) :
    (Rollback (Start m w).m (Start m w).w).w.calls =
      w.calls ++ (Start m w).newCalls w ++
        (Rollback (Start m w).m (Start m w).w).newCalls (Start m w).w ∧
    (∀ b ∈ (Start m w).newCalls w, b.method = Method.Begin) ∧
    (∀ c ∈ (Rollback (Start m w).m (Start m w).w).newCalls (Start m w).w,
      c.method = Method.End ∧ m.services[c.index]? = some c.sp ∧
      { method := Method.Begin, index := c.index, sp := c.sp, ret := none } ∈
        (Start m w).newCalls w) ∧
    (∀ b ∈ (Start m w).newCalls w, b.ret ≠ none →
      ∀ c ∈ (Rollback (Start m w).m (Start m w).w).newCalls (Start m w).w,
        c.index < b.index) := by
  obtain ⟨hS1, hS2⟩ := Start_trace_shape m w
  obtain ⟨hR1, _, hR3, _⟩ := Rollback_trace_shape (Start m w).m (Start m w).w
  have hmem := Rollback_call_mem (Start m w).m (Start m w).w
  refine ⟨?_, hS2, ?_, ?_⟩
  · rw [hR1, hS1, ← hS1]
  · intro c hc
    have hp := hmem c hc
    refine ⟨hR3 c hc, ?_, ?_⟩
    · rcases Start_calls m w with ⟨_, hst, _, _⟩ | ⟨k, hk, e, _, _, hst, _, _⟩
      · rw [hst] at hp
        exact List.mk_mem_enum_iff_getElem?.1 hp
      · rw [hst, enum_take] at hp
        exact List.mk_mem_enum_iff_getElem?.1 (List.mem_of_mem_take hp)
    · rcases Start_calls m w with ⟨_, hst, _, hcalls⟩ | ⟨k, hk, e, _, _, hst, _, hcalls⟩
      · rw [newCalls_append _ _ _ hcalls]
        rw [hst] at hp
        exact List.mem_map.2 ⟨(c.index, c.sp), hp, rfl⟩
      · rw [newCalls_append _ _ _ hcalls]
        rw [hst, enum_take] at hp
        exact List.mem_append_left _ (List.mem_map.2 ⟨(c.index, c.sp), hp, rfl⟩)
  · intro b hb hne c hc
    have hp := hmem c hc
    rcases Start_calls m w with ⟨_, _, _, hcalls⟩ | ⟨k, hk, e, _, _, hst, _, hcalls⟩
    · rw [newCalls_append _ _ _ hcalls] at hb
      exact absurd (okCalls_method _ _ b hb).2.1 hne
    · rw [newCalls_append _ _ _ hcalls] at hb
      rcases List.mem_append.1 hb with h1 | h1
      · exact absurd (okCalls_method _ _ b h1).2.1 hne
      · rw [List.mem_singleton] at h1
        rw [h1]
        rw [hst] at hp
        have hlt := List.fst_lt_of_mem_enum hp
        rw [List.length_take] at hlt
        exact Nat.lt_of_lt_of_le hlt (Nat.min_le_left _ _)

/-- Witness of C10 on `[A, B, C]` with `B.Begin` failing: `End` is called on
`A` only, not on `B` nor on `C`. -/
theorem no_crossover_witness :
    ((Rollback (Start midStartFailure world0).m (Start midStartFailure world0).w).w.calls).map
        (fun c => (c.method, c.index, c.sp.GetName, c.ret)) =
      [(Method.Begin, 0, "A", none), (Method.Begin, 1, "B", some usedErr),
       (Method.End, 0, "A", none)] ∧
    (∀ b ∈ (Start midStartFailure world0).newCalls world0, b.method = Method.Begin) :=
  ⟨by decide, (no_crossover midStartFailure world0).2.1⟩

/-! ## Rollback with nothing started, registration, and the frame of the passes -/

/-- With `startedServices` empty the loop of `Rollback` does not run. -/
theorem Rollback_of_started_nil (m : Manager σ) (w : World σ)
    (h : m.startedServices = []) :
    Rollback m w = { res := { err := none, errServiceProvider := none }, m := m, w := w } := by
  have hok : AllOk Method.End m.startedServices.reverse w.state := by
    rw [h]; trivial
  rw [Rollback_ok m w hok, h]
  cases w
  simp [afterAll, okCalls]

/-- Registration alone never starts anything. -/
theorem AddService_fold_started (xss : List (List (ServiceProvider σ))) :
    ∀ m : Manager σ, (xss.foldl AddService m).startedServices = m.startedServices := by
  induction xss with
  | nil => intro m; rfl
  | cons xs xss ih => intro m; exact ih (AddService m xs)

/-- C11 (rollback with nothing started is a no-op).  Whenever
`startedServices` is empty, `Rollback` returns the `Result` with nil error
and nil provider, makes no call, and leaves manager and world as they were.
That is the case on a manager made by `NewManager` after any number of
`AddService` calls and no `Start`, after a `Start` over an empty `services`,
and after a `Start` whose first `Begin` failed. -/
theorem Rollback_nothing_started (m : Manager σ) (w : World σ) :
    (m.startedServices = [] →
      Rollback m w = { res := { err := none, errServiceProvider := none }, m := m, w := w } ∧
      (Rollback m w).newCalls w = []) ∧
    (∀ xss : List (List (ServiceProvider σ)),
      Rollback (xss.foldl AddService NewManager) w =
        { res := { err := none, errServiceProvider := none },
          m := xss.foldl AddService NewManager, w := w }) ∧
    (m.services = [] →
      Rollback (Start m w).m (Start m w).w =
        { res := { err := none, errServiceProvider := none },
          m := (Start m w).m, w := (Start m w).w }) ∧
    (∀ h : 0 < m.services.length, ((m.services.get ⟨0, h⟩).Begin w.state).1 ≠ none →
      Rollback (Start m w).m (Start m w).w =
        { res := { err := none, errServiceProvider := none },
          m := (Start m w).m, w := (Start m w).w }) := by
  refine ⟨?_, ?_, ?_, ?_⟩
  · intro h
    have heq := Rollback_of_started_nil m w h
    refine ⟨heq, ?_⟩
    rw [heq]
    unfold Pass.newCalls
    exact List.drop_length _
  · intro xss
    apply Rollback_of_started_nil
    rw [AddService_fold_started]
    rfl
  · intro h
    apply Rollback_of_started_nil
    rw [Start_eq_scan, h]
    rfl
  · intro h hne
    apply Rollback_of_started_nil
    cases hval : ((m.services.get ⟨0, h⟩).Begin w.state).1 with
    | none => exact absurd hval hne
    | some e =>
      rw [Start_fail m w 0 h e trivial hval]
      rfl

/-- Witness of C11 on `[B]` with `B.Begin` failing: `Rollback` after that
`Start` changes nothing, and `B.End` is not called. -/
theorem Rollback_nothing_started_witness :
    Rollback (Start singleStartFailure world0).m (Start singleStartFailure world0).w =
      { res := { err := none, errServiceProvider := none },
        m := (Start singleStartFailure world0).m, w := (Start singleStartFailure world0).w } ∧
    ((Start singleStartFailure world0).w.calls).map (fun c => (c.method, c.sp.GetName)) =
      [(Method.Begin, "B")] :=
  ⟨(Rollback_nothing_started singleStartFailure world0).2.2.2 (by decide)
      (Option.some_ne_none usedErr),
   by decide⟩

/-- C12 (`AddService` appends in caller order).  After `AddService` the
`services` list is the old list followed by the arguments in the order
given and `startedServices` is untouched; two calls in a row leave the same
manager as one call with the two argument lists joined; on a manager made by
`NewManager` the `services` list is the argument list. -/
theorem AddService_appends (m : Manager σ) (xs ys : List (ServiceProvider σ)) :
    (AddService m xs).services = m.services ++ xs ∧
    (AddService m xs).startedServices = m.startedServices ∧
    AddService (AddService m xs) ys = AddService m (xs ++ ys) ∧
    (AddService NewManager xs).services = xs := by
  refine ⟨rfl, rfl, ?_, ?_⟩
  · simp [AddService]
  · simp [AddService, NewManager]

/-- C13 (default callables).  For every name, a provider built by
`NewServiceProvider` with a nil `begin` has a `Begin` that returns nil and
leaves the state alone, whatever `end` is, and likewise for a nil `end`;
with both nil, any number of `Begin` calls and any number of `End` calls all
return nil and leave the state as it was. -/
theorem NewServiceProvider_defaults (name : String)
    (f : Option (σ → Option error × σ)) (st : σ) :
    (NewServiceProvider name none f).Begin st = (none, st) ∧
    (NewServiceProvider name f none).End st = (none, st) ∧
    (∀ n : Nat,
      AllOk Method.Begin (List.replicate n (NewServiceProvider name none none)) st ∧
      afterAll Method.Begin (List.replicate n (NewServiceProvider name none none)) st = st ∧
      AllOk Method.End (List.replicate n (NewServiceProvider name none none)) st ∧
      afterAll Method.End (List.replicate n (NewServiceProvider name none none)) st = st) := by
  refine ⟨rfl, rfl, ?_⟩
  intro n
  induction n with
  | zero => exact ⟨trivial, rfl, trivial, rfl⟩
  | succ n ih =>
    obtain ⟨h1, h2, h3, h4⟩ := ih
    exact ⟨⟨rfl, h1⟩, h2, ⟨rfl, h3⟩, h4⟩

/-- C14 (frame of the passes).  `Rollback` leaves `startedServices` and
`services` as they were, whatever it returns; `Start` leaves `services` as
it was; a client call other than `AddService` leaves `services` as it was. -/
theorem passes_frame (m : Manager σ) (w : World σ) :
    (Rollback m w).m.startedServices = m.startedServices ∧
    (Rollback m w).m.services = m.services ∧
    (Start m w).m.services = m.services ∧
    (∀ (op : Op σ) (s : Manager σ × World σ),
      (∀ xs, op ≠ Op.AddService xs) → (exec op s).1.services = s.1.services) := by
  refine ⟨by rw [Rollback_m], by rw [Rollback_m], Start_services m w, ?_⟩
  intro op s hop
  obtain ⟨m1, w1⟩ := s
  cases op with
  | AddService xs => exact absurd rfl (hop xs)
  | Start => exact Start_services m1 w1
  | Rollback => show (Rollback m1 w1).m.services = m1.services; rw [Rollback_m]

/-- Witness of C14 on `[A, B, C, D]` with `C.End` failing: `Rollback` fails
and still leaves both lists as they were. -/
theorem passes_frame_witness :
    (Rollback midTeardownFailure world0).res.GetError = some usedErr ∧
    (Rollback midTeardownFailure world0).m.startedServices =
      midTeardownFailure.startedServices :=
  ⟨by decide, (passes_frame midTeardownFailure world0).1⟩

/-- C17 (`NewServiceProvider` forwards faithfully).  For every name and every
`begin` and `end` that are not nil, the provider has `GetName` equal to the
name as given, `Begin` is one call of `begin` (its result and its effect on
the state, nothing else), and `End` is one call of `end`. -/
theorem NewServiceProvider_forwards (name : String)
    (begin : σ → Option error × σ) (fin : σ → Option error × σ) (st : σ) :
    (NewServiceProvider name (some begin) (some fin)).GetName = name ∧
    (NewServiceProvider name (some begin) (some fin)).Begin st = begin st ∧
    (NewServiceProvider name (some begin) (some fin)).End st = fin st :=
  ⟨rfl, rfl, rfl⟩

/-- Witness of C17 with the empty name and two callables that count their own
calls: `Begin` counts one `begin` and no `end`, `End` one `end` and no
`begin`. -/
theorem NewServiceProvider_forwards_witness :
    (NewServiceProvider "" (some countBegin) (some countEnd)).GetName = "" ∧
    (NewServiceProvider "" (some countBegin) (some countEnd)).Begin (0, 0) = (none, (1, 0)) ∧
    (NewServiceProvider "" (some countBegin) (some countEnd)).End (0, 0) =
      (some usedErr, (0, 1)) :=
  NewServiceProvider_forwards "" countBegin countEnd (0, 0)

/-! ## Repeated passes and late registration -/

theorem okCalls_ret_count (k : Method) (V : List (Nat × ServiceProvider σ)) :
    ((okCalls k V).map Call.ret).count none = V.length := by
  induction V with
  | nil => rfl
  | cons p V ih =>
    have hcons : okCalls k (p :: V) =
        { method := k, index := p.1, sp := p.2, ret := none } :: okCalls k V := rfl
    rw [hcons, List.map_cons, List.count_cons_self, ih, List.length_cons]

/-- After `Start`, `startedServices` holds as many leading elements of
`services` as `Begin` calls returned nil. -/
theorem Start_started_count (m : Manager σ) (w : World σ) :
    (Start m w).m.startedServices =
      m.services.take ((((Start m w).newCalls w).map Call.ret).count none) := by
  rcases Start_calls m w with ⟨_, hst, _, hcalls⟩ | ⟨k, hk, e, _, _, hst, _, hcalls⟩
  · rw [newCalls_append _ _ _ hcalls, okCalls_ret_count, hst, List.enum_length,
      List.take_length]
  · rw [newCalls_append _ _ _ hcalls, List.map_append, List.count_append, okCalls_ret_count,
      hst, List.length_take, List.enum_length, Nat.min_eq_left (Nat.le_of_lt hk)]
    have h0 : (List.map Call.ret
        [({ method := Method.Begin, index := k, sp := m.services.get ⟨k, hk⟩,
            ret := some e } : Call σ)]).count none = 0 := by
      simp
    rw [h0, Nat.add_zero]

/-- `Rollback` reads `startedServices` only. -/
theorem Rollback_congr (m m2 : Manager σ) (w : World σ)
    (h : m2.startedServices = m.startedServices) :
    (Rollback m2 w).res = (Rollback m w).res ∧ (Rollback m2 w).w = (Rollback m w).w := by
  rw [Rollback_eq_scan, Rollback_eq_scan, h]
  exact ⟨rfl, rfl⟩

/-- Every `End` call of a `Rollback` that follows a `Start` is at an index of
the list `Start` ran over, on the provider registered there, where `Start`
called `Begin` and got nil. -/
theorem End_after_Start_mem (m : Manager σ) (w : World σ) :
    ∀ c ∈ (Rollback (Start m w).m (Start m w).w).newCalls (Start m w).w,
      c.method = Method.End ∧ c.index < m.services.length ∧
      m.services[c.index]? = some c.sp ∧
      { method := Method.Begin, index := c.index, sp := c.sp, ret := none } ∈
        (Start m w).newCalls w := by
  intro c hc
  have hp := Rollback_call_mem (Start m w).m (Start m w).w c hc
  have hEnd := (Rollback_trace_shape (Start m w).m (Start m w).w).2.2.1 c hc
  have key : (c.index, c.sp) ∈ m.services.enum ∧
      { method := Method.Begin, index := c.index, sp := c.sp, ret := none } ∈
        (Start m w).newCalls w := by
    rcases Start_calls m w with ⟨_, hst, _, hcalls⟩ | ⟨k, hk, e, _, _, hst, _, hcalls⟩
    · rw [newCalls_append _ _ _ hcalls]
      rw [hst] at hp
      exact ⟨hp, List.mem_map.2 ⟨(c.index, c.sp), hp, rfl⟩⟩
    · rw [newCalls_append _ _ _ hcalls]
      rw [hst, enum_take] at hp
      exact ⟨List.mem_of_mem_take hp,
        List.mem_append_left _ (List.mem_map.2 ⟨(c.index, c.sp), hp, rfl⟩)⟩
  exact ⟨hEnd, List.fst_lt_of_mem_enum key.1, List.mk_mem_enum_iff_getElem?.1 key.1, key.2⟩

/-- C15 (a repeated rollback calls every `End` again).  After a `Start` in
which every `Begin` succeeded and a `Rollback` in which every `End`
succeeded, a second `Rollback` in which every `End` succeeds again makes the
same `End` calls as the first, on every element of `startedServices` in
reverse order, and returns the empty success `Result`; with a provider
registered it does make calls. -/
theorem second_Rollback_repeats (m : Manager σ) (w : World σ)
    (hb : AllOk Method.Begin m.services w.state)
    (he1 : AllOk Method.End m.services.reverse (Start m w).w.state)
    (he2 : AllOk Method.End m.services.reverse
      (Rollback (Start m w).m (Start m w).w).w.state) :
    (Rollback (Rollback (Start m w).m (Start m w).w).m
        (Rollback (Start m w).m (Start m w).w).w).newCalls
        (Rollback (Start m w).m (Start m w).w).w =
      okCalls Method.End m.services.enum.reverse ∧
    (Rollback (Start m w).m (Start m w).w).newCalls (Start m w).w =
      okCalls Method.End m.services.enum.reverse ∧
    (Rollback (Rollback (Start m w).m (Start m w).w).m
        (Rollback (Start m w).m (Start m w).w).w).res =
      { err := none, errServiceProvider := none } ∧
    (Rollback (Rollback (Start m w).m (Start m w).w).m
        (Rollback (Start m w).m (Start m w).w).w).m.startedServices = m.services ∧
    (m.services ≠ [] →
      (Rollback (Rollback (Start m w).m (Start m w).w).m
          (Rollback (Start m w).m (Start m w).w).w).newCalls
          (Rollback (Start m w).m (Start m w).w).w ≠ []) := by
  have hst : (Start m w).m.startedServices = m.services := by rw [Start_ok m w hb]
  have hR1m : (Rollback (Start m w).m (Start m w).w).m = (Start m w).m := Rollback_m _ _
  have hR1 := Rollback_ok (Start m w).m (Start m w).w (by rw [hst]; exact he1)
  have hst2 : (Rollback (Start m w).m (Start m w).w).m.startedServices = m.services := by
    rw [hR1m, hst]
  have hR2 := Rollback_ok (Rollback (Start m w).m (Start m w).w).m
    (Rollback (Start m w).m (Start m w).w).w (by rw [hst2]; exact he2)
  rw [hst2] at hR2
  rw [hst] at hR1
  have hc2 : (Rollback (Rollback (Start m w).m (Start m w).w).m
        (Rollback (Start m w).m (Start m w).w).w).newCalls
        (Rollback (Start m w).m (Start m w).w).w =
      okCalls Method.End m.services.enum.reverse :=
    newCalls_append _ _ _ (by rw [hR2])
  refine ⟨hc2, newCalls_append _ _ _ (by rw [hR1]), by rw [hR2], ?_, ?_⟩
  · rw [Rollback_m, hR1m, hst]
  · intro hne habs
    rw [hc2] at habs
    have hlen := congrArg List.length habs
    rw [okCalls_length, List.length_reverse, List.enum_length] at hlen
    exact hne (List.length_eq_zero.1 hlen)

/-- Witness of C15 on `[A, B, C]`: the second `Rollback` calls `C.End`,
`B.End`, `A.End` once more. -/
theorem second_Rollback_repeats_witness :
    ((Rollback (Rollback (Start allSucceed world0).m (Start allSucceed world0).w).m
        (Rollback (Start allSucceed world0).m (Start allSucceed world0).w).w).newCalls
        (Rollback (Start allSucceed world0).m (Start allSucceed world0).w).w).map
        (fun c => (c.method, c.index, c.sp.GetName)) =
      [(Method.End, 2, "C"), (Method.End, 1, "B"), (Method.End, 0, "A")] ∧
    (Rollback (Rollback (Start allSucceed world0).m (Start allSucceed world0).w).m
        (Rollback (Start allSucceed world0).m (Start allSucceed world0).w).w).res =
      { err := none, errServiceProvider := none } :=
  ⟨by decide,
   (second_Rollback_repeats allSucceed world0 ⟨rfl, rfl, rfl, trivial⟩
      ⟨rfl, rfl, rfl, trivial⟩ ⟨rfl, rfl, rfl, trivial⟩).2.2.1⟩

/-- C16 (`Start` resets `startedServices`).  The `Result`, the manager and
the world after `Start` are the same for two managers with the same
`services`, whatever their `startedServices` were; a second `Start` whose
`Begin` calls return what those of the first returned leaves the same
`startedServices` as the first; and a `Start` whose first `Begin` fails,
after a `Start` that succeeded everywhere, leaves `startedServices` empty. -/
theorem Start_resets_started (m m2 : Manager σ) (w : World σ) :
    (m2.services = m.services → Start m2 w = Start m w) ∧
    (((Start (Start m w).m (Start m w).w).newCalls (Start m w).w).map Call.ret =
        ((Start m w).newCalls w).map Call.ret →
      (Start (Start m w).m (Start m w).w).m.startedServices =
        (Start m w).m.startedServices) ∧
    (AllOk Method.Begin m.services w.state →
      ∀ h : 0 < m.services.length,
        ((m.services.get ⟨0, h⟩).Begin (Start m w).w.state).1 ≠ none →
        (Start m w).m.startedServices = m.services ∧
        (Start (Start m w).m (Start m w).w).m.startedServices = []) := by
  refine ⟨?_, ?_, ?_⟩
  · intro h
    rw [Start_eq_scan, Start_eq_scan, h]
  · intro h
    rw [Start_started_count (Start m w).m (Start m w).w, h, Start_services,
      ← Start_started_count m w]
  · intro hb h hne
    have hsv : (Start m w).m.services = m.services := Start_services m w
    have h2 : 0 < (Start m w).m.services.length := by rw [hsv]; exact h
    have hget : (Start m w).m.services.get ⟨0, h2⟩ = m.services.get ⟨0, h⟩ := by
      simp only [List.get_eq_getElem, hsv]
    refine ⟨by rw [Start_ok m w hb], ?_⟩
    cases hval : ((m.services.get ⟨0, h⟩).Begin (Start m w).w.state).1 with
    | none => exact absurd hval hne
    | some e =>
      rw [Start_fail (Start m w).m (Start m w).w 0 h2 e trivial (by rw [hget]; exact hval)]
      rfl

/-- Witness of C16.  A manager whose `startedServices` holds a stray `Z`
starts exactly as one whose `startedServices` is empty; and on `[A]` where
`A.Begin` succeeds once only, the first `Start` starts `A` and the second
leaves `startedServices` empty. -/
theorem Start_resets_started_witness :
    Start { services := [noError "A", noError "B"], startedServices := [noError "Z"] } world0 =
      Start { services := [noError "A", noError "B"], startedServices := [] } world0 ∧
    ((Start startTwice world0).m.startedServices = startTwice.services ∧
      (Start (Start startTwice world0).m (Start startTwice world0).w).m.startedServices = []) :=
  ⟨(Start_resets_started { services := [noError "A", noError "B"], startedServices := [] }
      { services := [noError "A", noError "B"], startedServices := [noError "Z"] }
      world0).1 rfl,
   (Start_resets_started startTwice startTwice world0).2.2 ⟨rfl, trivial⟩ (by decide)
      (Option.some_ne_none usedErr)⟩

/-- C18 (late registration is not torn down).  `AddService` after a `Start`
extends `services` and leaves `startedServices` alone; the `Rollback` that
follows returns what it would have returned without the late registration
and makes the same calls: `End` calls only, each at an index below the
number of providers registered at the time of the `Start`, on the provider
registered there, which `Start` began successfully. -/
theorem late_registration_not_torn_down (m : Manager σ) (w : World σ)
    (xs : List (ServiceProvider σ)) :
    (AddService (Start m w).m xs).services = m.services ++ xs ∧
    (AddService (Start m w).m xs).startedServices = (Start m w).m.startedServices ∧
    (Rollback (AddService (Start m w).m xs) (Start m w).w).res =
      (Rollback (Start m w).m (Start m w).w).res ∧
    (Rollback (AddService (Start m w).m xs) (Start m w).w).w =
      (Rollback (Start m w).m (Start m w).w).w ∧
    (Rollback (AddService (Start m w).m xs) (Start m w).w).m = AddService (Start m w).m xs ∧
    (∀ c ∈ (Rollback (AddService (Start m w).m xs) (Start m w).w).newCalls (Start m w).w,
      c.method = Method.End ∧ c.index < m.services.length ∧
      m.services[c.index]? = some c.sp ∧
      { method := Method.Begin, index := c.index, sp := c.sp, ret := none } ∈
        (Start m w).newCalls w) := by
  have hcongr := Rollback_congr (Start m w).m (AddService (Start m w).m xs) (Start m w).w rfl
  refine ⟨?_, rfl, hcongr.1, hcongr.2, Rollback_m _ _, ?_⟩
  · show (Start m w).m.services ++ xs = m.services ++ xs
    rw [Start_services]
  · intro c hc
    apply End_after_Start_mem m w c
    unfold Pass.newCalls at hc ⊢
    rw [hcongr.2] at hc
    exact hc

/-- Witness of C18: `[A, B, C]` started, then `D` registered; `Rollback`
calls `C.End`, `B.End`, `A.End` and not `D.End`. -/
theorem late_registration_not_torn_down_witness :
    ((Rollback (AddService (Start allSucceed world0).m [noError "D"])
        (Start allSucceed world0).w).newCalls (Start allSucceed world0).w).map
        (fun c => (c.method, c.index, c.sp.GetName)) =
      [(Method.End, 2, "C"), (Method.End, 1, "B"), (Method.End, 0, "A")] ∧
    (AddService (Start allSucceed world0).m [noError "D"]).services =
      allSucceed.services ++ [noError "D"] :=
  ⟨by decide, (late_registration_not_torn_down allSucceed world0 [noError "D"]).1⟩

end LifecycleMgr
